import Mathlib

/-
Verification of the Kaleidoscope front end (src/main.cpp): lexer, recursive
descent parser with precedence climbing, code generator, and interactive
driver loop.  The numeric value type of the language (C++ `double`) is
modelled by the rationals; machine floating point distinctions (NaNs,
rounding) play no role in the verified scenarios, whose values are small
integers that `double` represents exactly.
-/

namespace Kaleidoscope

/-! ## Lexer (`gettok`, src/main.cpp lines 71-126)

The input source is a list of characters together with the `LastChar`
static of `gettok`; `getchar()` at end of input yields EOF, modelled as
`none`.  The character classification functions mirror the C library
predicates on the ASCII range used by the program. -/

def cIsSpace (c : Char) : Bool :=
  c = ' ' || c = '\t' || c = '\n' || c = '\r' || c = '\x0b' || c = '\x0c'

def cIsDigit (c : Char) : Bool := '0' ≤ c && c ≤ '9'

def cIsAlpha (c : Char) : Bool := ('A' ≤ c && c ≤ 'Z') || ('a' ≤ c && c ≤ 'z')

def cIsAlnum (c : Char) : Bool := cIsAlpha c || cIsDigit c

/-- Tokens returned by `gettok`: the `enum Token` values plus the verbatim
single character case (`ThisChar`).  `ident` carries `IdentifierStr`,
`num` carries `NumVal`; the keyword for external declarations
(`tok_extern` in the source) is written `kext` here. -/
inductive Tok where
  | eof
  | kdef
  | kext
  | ident (s : String)
  | num (v : ℚ)
  | ch (c : Char)
deriving DecidableEq, Repr

/-- One `getchar()` call: the next character of the remaining input, or EOF. -/
def getchar : List Char → Option Char × List Char
  | [] => (none, [])
  | c :: rest => (some c, rest)

/-- The comment loop of `gettok`:
`do LastChar = getchar(); while (LastChar != EOF && LastChar != '\n' && LastChar != '\r')`. -/
def skipToEOL : List Char → Option Char × List Char
  | [] => (none, [])
  | c :: rest => if c = '\n' || c = '\r' then (some c, rest) else skipToEOL rest

/-- The whitespace loop of `gettok` fused with its comment handling: skip
spaces; on `#` absorb the rest of the line and, unless end of input was
reached, start over (the `return gettok()` recursion of the source, whose
next whitespace loop this models).  The loop consumes at least one input
character per iteration, so a fuel of `input.length + 1` always suffices;
fuel is used only to make the recursion structural. -/
def skipJunk (fuel : Nat) (lc : Option Char) (input : List Char) :
    Option Char × List Char :=
  match fuel with
  | 0 => (lc, input)
  | f + 1 =>
    match lc with
    | none => (none, input)
    | some c =>
      if cIsSpace c then
        match input with
        | [] => (none, [])
        | d :: rest => skipJunk f (some d) rest
      else if c = '#' then
        match skipToEOL input with
        | (none, rest) => (none, rest)
        | (some d, rest) => skipJunk f (some d) rest
      else (some c, input)

/-- The identifier / number scanning loops: append characters while the
predicate holds, `LastChar` ending on the first rejected character. -/
def readWhile (p : Char → Bool) (acc : List Char) (input : List Char) :
    List Char × Option Char × List Char :=
  match input with
  | [] => (acc, none, [])
  | c :: rest => if p c then readWhile p (acc ++ [c]) rest else (acc, some c, rest)

def digitsToNat (l : List Char) : Nat :=
  l.foldl (fun acc c => 10 * acc + (c.toNat - 48)) 0

/-- Modelled from the spec: `strtod` applied to a greedy `[0-9.]+` scan
("parsed to a floating-point value", §4.1) — integer digits, then an
optional fraction after the first dot; a second dot stops the conversion,
exactly as strtod's prefix parse does. -/
def strtodQ (l : List Char) : ℚ :=
  let intPart := l.takeWhile cIsDigit
  let rest := l.drop intPart.length
  match rest with
  | '.' :: r2 =>
    let frac := r2.takeWhile cIsDigit
    (digitsToNat intPart : ℚ) + (digitsToNat frac : ℚ) / ((10 : ℚ) ^ frac.length)
  | _ => (digitsToNat intPart : ℚ)

/-- Keyword recognition at the end of the identifier branch. -/
def identTok (str : String) : Tok :=
  if str = "def" then .kdef else if str = "extern" then .kext else .ident str

/-- `gettok`: the next token, together with the updated `LastChar` and
remaining input. -/
def gettok (lc : Option Char) (input : List Char) : Tok × Option Char × List Char :=
  match skipJunk (input.length + 1) lc input with
  | (none, in1) => (.eof, none, in1)
  | (some c, in1) =>
    if cIsAlpha c then
      let r := readWhile cIsAlnum [c] in1
      (identTok (String.mk r.1), r.2.1, r.2.2)
    else if cIsDigit c || c = '.' then
      let r := readWhile (fun d => cIsDigit d || d = '.') [c] in1
      (.num (strtodQ r.1), r.2.1, r.2.2)
    else
      ((.ch c), (getchar in1).1, (getchar in1).2)

theorem identTok_ne_eof (s : String) : identTok s ≠ .eof := by
  unfold identTok
  split <;> simp_all
  split <;> simp_all

theorem skipJunk_none (fuel : Nat) (input : List Char) :
    skipJunk fuel none input = (none, input) := by
  cases fuel <;> simp [skipJunk]

/-- Claim C10: once `gettok` returns the end-of-input token, calling it again
on the resulting lexer state returns the end token from an unchanged state:
no further reads from the input source and no other side effects. -/
theorem c10_eof_idempotent (lc : Option Char) (input : List Char)
    (lc2 : Option Char) (in2 : List Char)
    (h : gettok lc input = (Tok.eof, lc2, in2)) :
    gettok lc2 in2 = (Tok.eof, lc2, in2) := by
  rcases hsk : skipJunk (input.length + 1) lc input with ⟨lc1, in1⟩
  unfold gettok at h
  rw [hsk] at h
  cases lc1 with
  | none =>
    simp only [Prod.mk.injEq] at h
    obtain ⟨-, h2, h3⟩ := h
    subst h2; subst h3
    simp [gettok, skipJunk_none]
  | some c =>
    simp only at h
    split at h
    · exact absurd (Prod.mk.injEq .. ▸ h).1 (identTok_ne_eof _)
    · split at h
      · simp at h
      · simp at h

/-- Witness for C10 at a concrete state: the primed initial state on empty
input first yields the end token, and the theorem then applies. -/
theorem c10_witness : gettok none [] = (Tok.eof, none, []) :=
  c10_eof_idempotent (some ' ') [] none [] (by rfl)

/-! ## AST (src/main.cpp lines 134-216)

The expression node variants (`NumberExprAST`, `VariableExprAST`,
`BinaryExprAST`, `CallExprAST`) become one closed inductive; the argument
vector of a call is a mutually defined list so that structural recursion
and induction over the tree are available. -/

mutual
inductive ExprAST where
  | num (v : ℚ)
  | var (n : String)
  | bin (op : Char) (lhs rhs : ExprAST)
  | call (callee : String) (args : ExprListAST)
inductive ExprListAST where
  | nil
  | cons (e : ExprAST) (es : ExprListAST)
end

def ExprListAST.length : ExprListAST → Nat
  | .nil => 0
  | .cons _ es => 1 + es.length

/-- `push_back` on the argument vector being built by the parser. -/
def ExprListAST.snoc : ExprListAST → ExprAST → ExprListAST
  | .nil, e => .cons e .nil
  | .cons a es, e => .cons a (es.snoc e)

/-- `PrototypeAST`: function name and argument names. -/
structure PrototypeAST where
  name : String
  args : List String

/-- `FunctionAST`: a prototype plus a body expression. -/
structure FunctionAST where
  proto : PrototypeAST
  body : ExprAST

/-! ## Parser (src/main.cpp lines 223-436)

Parser state: the one-token lookahead `CurTok` plus the lexer state, and
the diagnostics emitted through `LogError`/`LogErrorP` (which print to the
error stream and return the null result, modelled as `none`).  The mutual
recursion of the recursive-descent procedures is made structural with a
fuel argument; fuel exhaustion returns the failure result and in every
verified scenario the supplied fuel is ample. -/

structure PState where
  curTok : Tok
  lc : Option Char
  input : List Char
  errs : List String
deriving DecidableEq, Repr

def getNextToken (s : PState) : PState :=
  match gettok s.lc s.input with
  | (t, lc2, in2) => { s with curTok := t, lc := lc2, input := in2 }

def logErrP (s : PState) (msg : String) : PState :=
  { s with errs := s.errs ++ [msg] }

/-- `BinopPrecedence` as installed by `main`: `<`:10, `+`:20, `-`:20, `*`:40.
An absent key reads as 0 (`std::map::operator[]` default-inserts zero,
which `GetTokPrecedence` maps to -1). -/
def BinopPrecedence (c : Char) : Int :=
  if c = '<' then 10
  else if c = '+' then 20
  else if c = '-' then 20
  else if c = '*' then 40
  else 0

/-- `GetTokPrecedence`: -1 unless the lookahead is an ASCII character with a
positive entry in the precedence table (the negative `enum Token` values
fail the `isascii` test). -/
def GetTokPrecedence (t : Tok) : Int :=
  match t with
  | .ch c =>
    if c.toNat ≤ 127 then
      if BinopPrecedence c ≤ 0 then -1 else BinopPrecedence c
    else -1
  | _ => -1

mutual

/-- `ParseExpression ::= primary binoprhs`. -/
def ParseExpression (fuel : Nat) (s : PState) : Option ExprAST × PState :=
  match fuel with
  | 0 => (none, s)
  | f + 1 =>
    match ParsePrimary f s with
    | (none, s1) => (none, s1)
    | (some lhs, s1) => ParseBinOpRHS f 0 lhs s1

/-- `ParsePrimary`: identifier, number, or parenthesized expression. -/
def ParsePrimary (fuel : Nat) (s : PState) : Option ExprAST × PState :=
  match fuel with
  | 0 => (none, s)
  | f + 1 =>
    match s.curTok with
    | .ident _ => ParseIdentifierExpr f s
    | .num v => (some (.num v), getNextToken s)
    | .ch '(' => ParseParenExpr f s
    | _ => (none, logErrP s "unknown tokenw hen expecting an exp")

/-- `ParseParenExpr ::= '(' expression ')'`. -/
def ParseParenExpr (fuel : Nat) (s : PState) : Option ExprAST × PState :=
  match fuel with
  | 0 => (none, s)
  | f + 1 =>
    let s1 := getNextToken s
    match ParseExpression f s1 with
    | (none, s2) => (none, s2)
    | (some v, s2) =>
      if s2.curTok = .ch ')' then (some v, getNextToken s2)
      else (none, logErrP s2 "expected )")

/-- `ParseIdentifierExpr`: a variable reference, or a call when an opening
parenthesis immediately follows. -/
def ParseIdentifierExpr (fuel : Nat) (s : PState) : Option ExprAST × PState :=
  match fuel with
  | 0 => (none, s)
  | f + 1 =>
    match s.curTok with
    | .ident idName =>
      let s1 := getNextToken s
      if s1.curTok ≠ .ch '(' then (some (.var idName), s1)
      else
        let s2 := getNextToken s1
        if s2.curTok = .ch ')' then (some (.call idName .nil), getNextToken s2)
        else
          match ParseCallArgs f .nil s2 with
          | (none, s3) => (none, s3)
          | (some args, s3) => (some (.call idName args), getNextToken s3)
    | _ => (none, s)

/-- The argument loop of `ParseIdentifierExpr`: comma separated expressions
up to the closing parenthesis (which the caller consumes). -/
def ParseCallArgs (fuel : Nat) (acc : ExprListAST) (s : PState) :
    Option ExprListAST × PState :=
  match fuel with
  | 0 => (none, s)
  | f + 1 =>
    match ParseExpression f s with
    | (none, s1) => (none, s1)
    | (some arg, s1) =>
      let acc2 := acc.snoc arg
      if s1.curTok = .ch ')' then (some acc2, s1)
      else if s1.curTok ≠ .ch ',' then (none, logErrP s1 "Expected ) or , in argument")
      else ParseCallArgs f acc2 (getNextToken s1)

/-- `ParseBinOpRHS`: precedence climbing.  Below-threshold lookahead returns
the accumulated left operand; otherwise consume the operator, parse a
primary, recurse at `TokPrec + 1` when the next operator binds strictly
tighter, fold into a `BinaryExprAST`, and loop. -/
def ParseBinOpRHS (fuel : Nat) (exprPrec : Int) (lhs : ExprAST) (s : PState) :
    Option ExprAST × PState :=
  match fuel with
  | 0 => (none, s)
  | f + 1 =>
    let tokPrec := GetTokPrecedence s.curTok
    if tokPrec < exprPrec then (some lhs, s)
    else
      match s.curTok with
      | .ch binOp =>
        let s1 := getNextToken s
        match ParsePrimary f s1 with
        | (none, s2) => (none, s2)
        | (some rhs0, s2) =>
          let nextPrec := GetTokPrecedence s2.curTok
          if tokPrec < nextPrec then
            match ParseBinOpRHS f (tokPrec + 1) rhs0 s2 with
            | (none, s3) => (none, s3)
            | (some rhs1, s3) => ParseBinOpRHS f exprPrec (.bin binOp lhs rhs1) s3
          else ParseBinOpRHS f exprPrec (.bin binOp lhs rhs0) s2
      | _ =>
        (some lhs, s)

end

/-- The parameter name loop of `ParsePrototype`:
`while (getNextToken() == tok_identifier)`. -/
def ParseProtoArgs (fuel : Nat) (acc : List String) (s : PState) :
    List String × PState :=
  match fuel with
  | 0 => (acc, s)
  | f + 1 =>
    let s1 := getNextToken s
    match s1.curTok with
    | .ident a => ParseProtoArgs f (acc ++ [a]) s1
    | _ => (acc, s1)

/-- `ParsePrototype ::= id '(' id* ')'`. -/
def ParsePrototype (fuel : Nat) (s : PState) : Option PrototypeAST × PState :=
  match s.curTok with
  | .ident fnName =>
    let s1 := getNextToken s
    if s1.curTok ≠ .ch '(' then (none, logErrP s1 "Expected '(' in prototype")
    else
      match ParseProtoArgs fuel [] s1 with
      | (argNames, s2) =>
        if s2.curTok ≠ .ch ')' then (none, logErrP s2 "Expected ')' in prototype")
        else (some ⟨fnName, argNames⟩, getNextToken s2)
  | _ => (none, logErrP s "Expected function name in prototype")

/-- `ParseDefinition ::= 'def' prototype expression`. -/
def ParseDefinition (fuel : Nat) (s : PState) : Option FunctionAST × PState :=
  let s1 := getNextToken s
  match ParsePrototype fuel s1 with
  | (none, s2) => (none, s2)
  | (some proto, s2) =>
    match ParseExpression fuel s2 with
    | (some e, s3) => (some ⟨proto, e⟩, s3)
    | (none, s3) => (none, s3)

/-- `ParseTopLevelExpr`: a bare expression wrapped in an anonymous
`FunctionAST` whose prototype has the empty name and no parameters. -/
def ParseTopLevelExpr (fuel : Nat) (s : PState) : Option FunctionAST × PState :=
  match ParseExpression fuel s with
  | (some e, s1) => (some ⟨⟨"", []⟩, e⟩, s1)
  | (none, s1) => (none, s1)

/-- `ParseExtern ::= 'extern' prototype` (named `ParseExt` here). -/
def ParseExt (fuel : Nat) (s : PState) : Option PrototypeAST × PState :=
  ParsePrototype fuel (getNextToken s)

/-! ## Code generation (src/main.cpp lines 444-580)

The backend (`LLVMContext`/`Module`/`IRBuilder`) is modelled at the
interface the code generator uses.  A backend function object carries an
identity (its pointer identity in the source), a name, the declaration
order parameter names, and an optional entry block of emitted
instructions — `Function::empty()` is `body = none`.  SSA values are
constants, parameters of the current function, or numbered instruction
results; a global counter supplies fresh numbers. -/

inductive Val where
  | constV (q : ℚ)
  | argV (i : Nat)
  | reg (n : Nat)
deriving DecidableEq, Repr

inductive Op where
  | fadd (a b : Val)
  | fsub (a b : Val)
  | fmul (a b : Val)
  | fcmpult (a b : Val)
  | uitofp (a : Val)
  | callOp (fid : Nat) (args : List Val)
  | retOp (a : Val)
deriving DecidableEq, Repr

structure Func where
  id : Nat
  name : String
  args : List String
  body : Option (List (Nat × Op))
deriving DecidableEq, Repr

/-- Code generator state: `TheModule`, `NamedValues`, the builder's insert
point, fresh-id/fresh-register counters, and the diagnostics written by
`LogErrorV`.  `NamedValues` entries carry `Option Val` because
`std::map::operator[]` default-inserts a null value handle on a failed
lookup. -/
structure CGState where
  module : List Func
  NamedValues : List (String × Option Val)
  insertFn : Option Nat
  nextId : Nat
  nextReg : Nat
  errors : List String
deriving DecidableEq, Repr

def logErrV (s : CGState) (msg : String) : CGState :=
  { s with errors := s.errors ++ [msg] }

/-- `TheModule->getFunction(name)`: symbol table lookup.  Unnamed values
(the empty name, used by the anonymous wrapper) are not entered in an LLVM
symbol table, so the empty name never resolves. -/
def getFunction (m : List Func) (n : String) : Option Func :=
  if n = "" then none else m.find? (fun f => f.name == n)

def nameTaken (m : List Func) (n : String) : Bool := m.any (fun f => f.name == n)

def freshNameAux (m : List Func) (n : String) : Nat → Nat → String
  | 0, k => n ++ "." ++ toString k
  | fuel + 1, k =>
    let cand := n ++ "." ++ toString k
    if nameTaken m cand then freshNameAux m n fuel (k + 1) else cand

/-- LLVM module symbol tables keep names unique: `Function::Create` with a
name that is already taken gives the new function a dotted numeric suffix;
empty names are left alone (unnamed values are not uniqued). -/
def freshName (m : List Func) (n : String) : String :=
  if n = "" then ""
  else if nameTaken m n then freshNameAux m n (m.length + 1) 0
  else n

/-- `NamedValues[Name]` (`std::map::operator[]`): return the stored handle,
default-inserting a null entry when the name is absent. -/
def mapIndex (nv : List (String × Option Val)) (n : String) :
    Option Val × List (String × Option Val) :=
  match nv with
  | [] => (none, [(n, none)])
  | e :: rest =>
    if e.1 = n then (e.2, e :: rest)
    else
      match mapIndex rest n with
      | (v, rest2) => (v, e :: rest2)

/-- `NamedValues[name] = value`: overwrite or insert. -/
def setNV (nv : List (String × Option Val)) (n : String) (v : Option Val) :
    List (String × Option Val) :=
  match nv with
  | [] => [(n, v)]
  | e :: rest => if e.1 = n then (n, v) :: rest else e :: setNV rest n v

/-- The parameter-binding loop of `FunctionAST::codegen`, starting from the
cleared table: `NamedValues[Arg.getName()] = &Arg` in declaration order. -/
def bindParamsAux (i : Nat) (nv : List (String × Option Val)) :
    List String → List (String × Option Val)
  | [] => nv
  | a :: rest => bindParamsAux (i + 1) (setNV nv a (some (.argV i))) rest

def bindParams (args : List String) : List (String × Option Val) :=
  bindParamsAux 0 [] args

/-- The names actually bound to a value handle in the scope table (entries
whose stored handle is non-null). -/
def boundNames (nv : List (String × Option Val)) : List String :=
  (nv.filter (fun e => e.2.isSome)).map Prod.fst

def appendInstr (m : List Func) (fid : Nat) (ins : Nat × Op) : List Func :=
  m.map (fun f => if f.id = fid then { f with body := f.body.map (fun b => b ++ [ins]) } else f)

/-- The `IRBuilder` `Create*` calls: append one instruction at the insert
point and return its (freshly numbered) result value. -/
def emit (op : Op) (s : CGState) : Val × CGState :=
  match s.insertFn with
  | none => (.reg s.nextReg, { s with nextReg := s.nextReg + 1 })
  | some fid =>
    (.reg s.nextReg,
     { s with module := appendInstr s.module fid (s.nextReg, op),
              nextReg := s.nextReg + 1 })

mutual

/-- `codegen` for the expression node variants (`NumberExprAST`,
`VariableExprAST`, `BinaryExprAST`, `CallExprAST`), written as one
exhaustive match instead of virtual dispatch. -/
def ExprAST.codegen : ExprAST → CGState → Option Val × CGState
  | .num v, s => (some (.constV v), s)
  | .var n, s =>
    match mapIndex s.NamedValues n with
    | (v, nv2) =>
      let s1 := { s with NamedValues := nv2 }
      match v with
      | none => (none, logErrV s1 "Unknown variable name")
      | some value => (some value, s1)
  | .bin op l r, s =>
    let (lv, s1) := ExprAST.codegen l s
    let (rv, s2) := ExprAST.codegen r s1
    match lv, rv with
    | some a, some b =>
      if op = '+' then
        match emit (.fadd a b) s2 with
        | (v, s3) => (some v, s3)
      else if op = '-' then
        match emit (.fsub a b) s2 with
        | (v, s3) => (some v, s3)
      else if op = '*' then
        match emit (.fmul a b) s2 with
        | (v, s3) => (some v, s3)
      else if op = '<' then
        match emit (.fcmpult a b) s2 with
        | (c, s3) =>
          match emit (.uitofp c) s3 with
          | (v, s4) => (some v, s4)
      else (none, logErrV s2 "invalid binary operator")
    | _, _ => (none, s2)
  | .call callee args, s =>
    match getFunction s.module callee with
    | none => (none, logErrV s "Unknown function referenced")
    | some f =>
      if f.args.length ≠ args.length then (none, logErrV s "Incorrect # arguments passed")
      else
        match ExprListAST.codegen args s with
        | (none, s1) => (none, s1)
        | (some argVals, s1) =>
          match emit (.callOp f.id argVals) s1 with
          | (v, s2) => (some v, s2)

/-- Left-to-right lowering of call arguments, stopping at the first
failure. -/
def ExprListAST.codegen : ExprListAST → CGState → Option (List Val) × CGState
  | .nil, s => (some [], s)
  | .cons e es, s =>
    match ExprAST.codegen e s with
    | (none, s1) => (none, s1)
    | (some v, s1) =>
      match ExprListAST.codegen es s1 with
      | (none, s2) => (none, s2)
      | (some vs, s2) => (some (v :: vs), s2)

end

/-- `PrototypeAST::codegen`: create a backend function of the fixed numeric
signature with the parameter names attached in declaration order.  Always
succeeds and returns the new function.  (If LLVM renames duplicate
parameter names, that renaming is not modelled; no verified scenario uses
duplicate parameters.) -/
def PrototypeAST.codegen (p : PrototypeAST) (s : CGState) : Nat × CGState :=
  let f : Func :=
    { id := s.nextId, name := freshName s.module p.name, args := p.args, body := none }
  (s.nextId, { s with module := s.module ++ [f], nextId := s.nextId + 1 })

/-- The first step of `FunctionAST::codegen`: reuse an existing function of
the prototype's name from the module, otherwise lower the prototype. -/
def resolveFn (p : PrototypeAST) (s : CGState) : Nat × CGState :=
  match getFunction s.module p.name with
  | some g => (g.id, s)
  | none => p.codegen s

def findFn (m : List Func) (fid : Nat) : Option Func := m.find? (fun f => f.id == fid)

/-- `!TheFunction->empty()`: the function already has an entry block. -/
def fnHasBody (m : List Func) (fid : Nat) : Bool :=
  match findFn m fid with
  | some f => f.body.isSome
  | none => false

def fnArgs (m : List Func) (fid : Nat) : List String :=
  match findFn m fid with
  | some f => f.args
  | none => []

def setBody (m : List Func) (fid : Nat) (b : Option (List (Nat × Op))) : List Func :=
  m.map (fun f => if f.id = fid then { f with body := b } else f)

/-- `BasicBlock::Create` + `SetInsertPoint` + the `NamedValues` clear and
parameter rebinding of `FunctionAST::codegen`. -/
def setupBody (fid : Nat) (s : CGState) : CGState :=
  { s with module := setBody s.module fid (some []),
           insertFn := some fid,
           NamedValues := bindParams (fnArgs s.module fid) }

/-- `Function::eraseFromParent()`. -/
def eraseFn (fid : Nat) (s : CGState) : CGState :=
  { s with module := s.module.filter (fun f => f.id != fid) }

/-- `FunctionAST::codegen`: resolve or create the function, reject
redefinition of a function that already has a body, open the entry block
and bind the parameters, lower the body; on success emit the return and
finish (the external verifier and the optimizer pipeline are
value-preserving and modelled as the identity), on failure erase the
function from the module. -/
def FunctionAST.codegen (fn : FunctionAST) (s : CGState) : Option Nat × CGState :=
  match resolveFn fn.proto s with
  | (fid, s1) =>
    if fnHasBody s1.module fid then (none, logErrV s1 "Function cannot be redefined")
    else
      match fn.body.codegen (setupBody fid s1) with
      | (some rv, s3) =>
        match emit (.retOp rv) s3 with
        | (_, s4) => (some fid, s4)
      | (none, s3) => (none, eraseFn fid s3)

/-! ## Execution semantics for the emitted code

Modelled from the spec: the execution collaborator
`execute(FunctionHandle) -> double` of §6, together with the meaning of
the IR-builder operations (`emit_add/sub/mul`, boolean-typed
`emit_less_than`, `emit_bool_to_numeric` with true→1.0 / false→0.0,
`emit_call`, `emit_return`).  The executor is a straight-line interpreter
over the emitted entry block; booleans are carried as 0/1 and the
widening conversion is numerically the identity.  Fuel bounds the number
of steps, `none` meaning failure (or fuel exhaustion, never reached in
the verified scenarios). -/

def lookupReg (regs : List (Nat × ℚ)) (n : Nat) : Option ℚ :=
  match regs.find? (fun e => e.1 == n) with
  | some e => some e.2
  | none => none

def evalVal (argvals : List ℚ) (regs : List (Nat × ℚ)) : Val → Option ℚ
  | .constV q => some q
  | .argV i => argvals.get? i
  | .reg n => lookupReg regs n

def evalVals (argvals : List ℚ) (regs : List (Nat × ℚ)) : List Val → Option (List ℚ)
  | [] => some []
  | v :: vs =>
    match evalVal argvals regs v with
    | none => none
    | some x =>
      match evalVals argvals regs vs with
      | none => none
      | some xs => some (x :: xs)

/-- Modelled from the spec: one run of the execution engine over an entry
block.  `FCmpULT` on NaN-free (rational) operands is the strict order. -/
def evalBody (fuel : Nat) (m : List Func) (argvals : List ℚ) (regs : List (Nat × ℚ)) :
    List (Nat × Op) → Option ℚ :=
  match fuel with
  | 0 => fun _ => none
  | f + 1 => fun instrs =>
    match instrs with
    | [] => none
    | (r, op) :: rest =>
      match op with
      | .retOp a => evalVal argvals regs a
      | .fadd a b =>
        match evalVal argvals regs a, evalVal argvals regs b with
        | some x, some y => evalBody f m argvals ((r, x + y) :: regs) rest
        | _, _ => none
      | .fsub a b =>
        match evalVal argvals regs a, evalVal argvals regs b with
        | some x, some y => evalBody f m argvals ((r, x - y) :: regs) rest
        | _, _ => none
      | .fmul a b =>
        match evalVal argvals regs a, evalVal argvals regs b with
        | some x, some y => evalBody f m argvals ((r, x * y) :: regs) rest
        | _, _ => none
      | .fcmpult a b =>
        match evalVal argvals regs a, evalVal argvals regs b with
        | some x, some y =>
          evalBody f m argvals ((r, if x < y then (1 : ℚ) else 0) :: regs) rest
        | _, _ => none
      | .uitofp a =>
        match evalVal argvals regs a with
        | some x => evalBody f m argvals ((r, x) :: regs) rest
        | none => none
      | .callOp fid cargs =>
        match evalVals argvals regs cargs with
        | none => none
        | some xs =>
          match findFn m fid with
          | none => none
          | some cf =>
            match cf.body with
            | none => none
            | some cb =>
              match evalBody f m xs [] cb with
              | none => none
              | some y => evalBody f m argvals ((r, y) :: regs) rest

/-- Modelled from the spec: `execute(FunctionHandle) -> double` (§6). -/
def execute (fuel : Nat) (m : List Func) (fid : Nat) (argvals : List ℚ) : Option ℚ :=
  match findFn m fid with
  | none => none
  | some f =>
    match f.body with
    | none => none
    | some b => evalBody fuel m argvals [] b

/-! ## Driver (src/main.cpp lines 643-733)

`HandleDefinition`, `HandleExtern` (`HandleExt` here) and
`HandleTopLevelExpression`, and the `MainLoop` switch.  Observable
reporting is recorded as events; the event vocabulary includes an
execution event for the spec's execution collaborator, so that its
absence from the driver's behaviour is expressible — the source never
invokes the execution engine (`TheJIT` is declared but never used). -/

inductive Event where
  | gotDef (fid : Nat)
  | gotExt (fid : Nat)
  | gotTop (fid : Nat)
  | exec (fid : Nat)
deriving DecidableEq, Repr

def Event.isExec : Event → Bool
  | .exec _ => true
  | _ => false

structure DState where
  pstate : PState
  cg : CGState
  events : List Event
deriving DecidableEq, Repr

/-- `HandleDefinition`: parse, then lower; report on success; skip one token
for error recovery only when parsing failed (a code generation failure
takes the success branch of the parse and consumes nothing further). -/
def HandleDefinition (fuel : Nat) (d : DState) : DState :=
  match ParseDefinition fuel d.pstate with
  | (some fn, p1) =>
    match fn.codegen d.cg with
    | (some fid, cg1) =>
      { d with pstate := p1, cg := cg1, events := d.events ++ [.gotDef fid] }
    | (none, cg1) => { d with pstate := p1, cg := cg1 }
  | (none, p1) => { d with pstate := getNextToken p1 }

/-- `HandleExtern`: prototype lowering always succeeds, so a parsed extern
is always reported. -/
def HandleExt (fuel : Nat) (d : DState) : DState :=
  match ParseExt fuel d.pstate with
  | (some proto, p1) =>
    match proto.codegen d.cg with
    | (fid, cg1) =>
      { d with pstate := p1, cg := cg1, events := d.events ++ [.gotExt fid] }
  | (none, p1) => { d with pstate := getNextToken p1 }

/-- `HandleTopLevelExpression`: parse the anonymous wrapper, lower it, and
on success report it and erase it from the module
(`FnIR->eraseFromParent()`).  No execution takes place. -/
def HandleTopLevelExpression (fuel : Nat) (d : DState) : DState :=
  match ParseTopLevelExpr fuel d.pstate with
  | (some fn, p1) =>
    match fn.codegen d.cg with
    | (some fid, cg1) =>
      { d with pstate := p1, cg := eraseFn fid cg1, events := d.events ++ [.gotTop fid] }
    | (none, cg1) => { d with pstate := p1, cg := cg1 }
  | (none, p1) => { d with pstate := getNextToken p1 }

/-- One iteration of the `MainLoop` switch; `none` is `return`, taken only
on the end-of-input token. -/
def MainStep (fuel : Nat) (d : DState) : Option DState :=
  match d.pstate.curTok with
  | .eof => none
  | .ch ';' => some { d with pstate := getNextToken d.pstate }
  | .kdef => some (HandleDefinition fuel d)
  | .kext => some (HandleExt fuel d)
  | _ => some (HandleTopLevelExpression fuel d)

/-- `MainLoop`, iterated up to `steps` times: `some` is normal termination
at end of input, `none` means the step budget ran out (never reached in
the verified scenarios). -/
def MainLoop (steps fuel : Nat) (d : DState) : Option DState :=
  match steps with
  | 0 => none
  | k + 1 =>
    match MainStep fuel d with
    | none => some d
    | some d2 => MainLoop k fuel d2

def cgInit : CGState := ⟨[], [], none, 0, 0, []⟩

/-- The state right after `main` primes `CurTok` with the first
`getNextToken()`; `LastChar` starts as a space. -/
def primeP (src : String) : PState := getNextToken ⟨.eof, some ' ', src.data, []⟩

def initD (src : String) : DState := ⟨primeP src, cgInit, []⟩

def PFUEL : Nat := 64

/-- A whole session: prime the lookahead, then run the loop to end of
input. -/
def runDriver (src : String) : Option DState := MainLoop 32 PFUEL (initD src)

/-- Modelled from the spec: feed one more bare expression to a finished
session and run it through the execution collaborator (§6) at the moment
the wrapper exists, i.e. right before the driver would discard it.  This
realises the spec's "<expr> evaluates to v" statements. -/
def evalBareIn (d : DState) (src : String) : Option ℚ :=
  let p := getNextToken { d.pstate with lc := some ' ', input := src.data }
  match ParseTopLevelExpr PFUEL p with
  | (some fn, _) =>
    match fn.codegen d.cg with
    | (some fid, cg1) => execute 16 cg1.module fid []
    | (none, _) => none
  | (none, _) => none

def sessionEval (pre expr : String) : Option ℚ :=
  match runDriver pre with
  | some d => evalBareIn d expr
  | none => none

/-- Parse a single expression from a fresh session (for the associativity
and precedence shape statements). -/
def parseStr (src : String) : Option ExprAST × PState :=
  ParseExpression PFUEL (primeP src)

/-! ## Helper lemmas -/

theorem findFn_erase (m : List Func) (fid : Nat) :
    findFn (m.filter (fun f => f.id != fid)) fid = none := by
  rw [findFn, List.find?_eq_none]
  intro f hf
  simp only [List.mem_filter, bne_iff_ne, ne_eq] at hf
  simp [hf.2]

/-- Claim C9: the precedence climbing parser is left-associative on equal
precedence and binds higher precedence tighter: with the installed table
(`<`:10, `+`:20, `-`:20, `*`:40), `1-2-3` parses as `(1-2)-3` and
evaluates to -4, `1+2*3` parses as `1+(2*3)` and evaluates to 7, and
`(1+2)*3` evaluates to 9. -/
theorem c9_precedence_climbing :
    (parseStr "1-2-3").1 = some (.bin '-' (.bin '-' (.num 1) (.num 2)) (.num 3))
    ∧ (parseStr "1+2*3").1 = some (.bin '+' (.num 1) (.bin '*' (.num 2) (.num 3)))
    ∧ (parseStr "(1+2)*3").1 = some (.bin '*' (.bin '+' (.num 1) (.num 2)) (.num 3))
    ∧ GetTokPrecedence (.ch '<') = 10 ∧ GetTokPrecedence (.ch '+') = 20
    ∧ GetTokPrecedence (.ch '-') = 20 ∧ GetTokPrecedence (.ch '*') = 40
    ∧ sessionEval "" "1-2-3" = some (-4)
    ∧ sessionEval "" "1+2*3" = some 7
    ∧ sessionEval "" "(1+2)*3" = some 9 := by
  refine ⟨?_, ?_, ?_, ?_, ?_, ?_, ?_, ?_, ?_, ?_⟩ <;> with_unfolding_all rfl

/-- Claim C2: for a `BinaryExprAST` with operator `<` whose operands lower
successfully, code generation emits the less-than comparison of the two
operand values followed by the widening boolean-to-numeric conversion,
and executing the emitted pair yields 1.0 when the comparison holds and
0.0 otherwise; concretely `3<4` evaluates to 1.0 and `4<3` to 0.0.
(The source emits `FCmpULT`; on the NaN-free numeric model the ordered
and unordered flavours of less-than coincide.) -/
theorem c2_less_than :
    (∀ (a b : ExprAST) (s s1 s2 : CGState) (l r : Val),
        ExprAST.codegen a s = (some l, s1) →
        ExprAST.codegen b s1 = (some r, s2) →
        ExprAST.codegen (.bin '<' a b) s =
          (match emit (.fcmpult l r) s2 with
           | (c, s3) =>
             match emit (.uitofp c) s3 with
             | (v, s4) => (some v, s4)))
    ∧ (∀ (f : Nat) (m : List Func) (argvals : List ℚ) (regs : List (Nat × ℚ))
         (n n2 n3 : Nat) (l r : Val) (x y : ℚ),
        evalVal argvals regs l = some x →
        evalVal argvals regs r = some y →
        evalBody (f + 3) m argvals regs
          [(n, .fcmpult l r), (n2, .uitofp (.reg n)), (n3, .retOp (.reg n2))] =
          some (if x < y then 1 else 0))
    ∧ sessionEval "" "3<4" = some 1
    ∧ sessionEval "" "4<3" = some 0 := by
  refine ⟨?_, ?_, ?_, ?_⟩
  · intro a b s s1 s2 l r hA hB
    simp only [ExprAST.codegen, hA, hB]
    rw [if_neg (by decide), if_neg (by decide), if_neg (by decide), if_pos trivial]
  · intro f m argvals regs n n2 n3 l r x y hx hy
    simp only [evalBody, hx, hy]
    simp [evalVal, lookupReg]
  · with_unfolding_all rfl
  · with_unfolding_all rfl

/-- Witness for C2 at concrete operands: lowering `3 < 4` from the initial
state emits the comparison and conversion pair. -/
theorem c2_witness :
    ExprAST.codegen (.bin '<' (.num 3) (.num 4)) cgInit =
      (match emit (.fcmpult (.constV 3) (.constV 4)) cgInit with
       | (c, s3) =>
         match emit (.uitofp c) s3 with
         | (v, s4) => (some v, s4)) :=
  c2_less_than.1 (.num 3) (.num 4) cgInit cgInit cgInit (.constV 3) (.constV 4) rfl rfl

/-- Claim C1 counterexample: for the bare top-level expression `42`, code
generation succeeds, the driver reports and erases the anonymous wrapper
(the module ends empty), but the run contains no execution event: the
driver never invokes the execution engine (the source declares `TheJIT`
and never uses it), so the wrapper is not "immediately executed" as the
claim states. -/
theorem c1_counterexample :
    ((runDriver "42").map fun d => d.events) = some [Event.gotTop 0]
    ∧ ((runDriver "42").map fun d => d.events.any Event.isExec) = some false
    ∧ ((runDriver "42").map fun d => d.cg.module.length) = some 0 := by
  refine ⟨?_, ?_, ?_⟩ <;> with_unfolding_all rfl

/-- Claim C1 (amended): a bare top-level expression is wrapped under the
empty prototype name; when its lowering succeeds, the driver reports it
and erases the wrapper from the backend module so it is not retained —
and it does not execute it (no execution event is ever produced). -/
theorem c1_anon_wrapper :
    (∀ (fuel : Nat) (p : PState) (e : ExprAST) (p1 : PState),
        ParseExpression fuel p = (some e, p1) →
        ParseTopLevelExpr fuel p = (some ⟨⟨"", []⟩, e⟩, p1))
    ∧ (∀ (fuel : Nat) (d : DState) (fn : FunctionAST) (p1 : PState)
         (fid : Nat) (cg1 : CGState),
        ParseTopLevelExpr fuel d.pstate = (some fn, p1) →
        fn.codegen d.cg = (some fid, cg1) →
        HandleTopLevelExpression fuel d =
          { d with pstate := p1, cg := eraseFn fid cg1,
                   events := d.events ++ [.gotTop fid] }
        ∧ findFn (eraseFn fid cg1).module fid = none
        ∧ (HandleTopLevelExpression fuel d).events.any Event.isExec
            = d.events.any Event.isExec) := by
  constructor
  · intro fuel p e p1 h
    simp only [ParseTopLevelExpr, h]
  · intro fuel d fn p1 fid cg1 hp hc
    have hh : HandleTopLevelExpression fuel d =
        { d with pstate := p1, cg := eraseFn fid cg1,
                 events := d.events ++ [.gotTop fid] } := by
      simp only [HandleTopLevelExpression, hp, hc]
    refine ⟨hh, findFn_erase cg1.module fid, ?_⟩
    rw [hh]
    simp [Event.isExec]

/-- Witness for C1 at the concrete input `42`: the handler erases the
wrapper (function id 0) and the erased module no longer contains it. -/
theorem c1_witness :
    HandleTopLevelExpression PFUEL (initD "42") =
      { initD "42" with
          pstate := (ParseTopLevelExpr PFUEL (initD "42").pstate).2,
          cg := eraseFn 0 ((FunctionAST.mk ⟨"", []⟩ (.num 42)).codegen (initD "42").cg).2,
          events := [Event.gotTop 0] }
    ∧ findFn (eraseFn 0 ((FunctionAST.mk ⟨"", []⟩ (.num 42)).codegen (initD "42").cg).2).module 0
        = none := by
  have h := c1_anon_wrapper.2 PFUEL (initD "42") ⟨⟨"", []⟩, .num 42⟩
      (ParseTopLevelExpr PFUEL (initD "42").pstate).2 0
      ((FunctionAST.mk ⟨"", []⟩ (.num 42)).codegen (initD "42").cg).2
      (by with_unfolding_all rfl) (by with_unfolding_all rfl)
  exact ⟨h.1, h.2.1⟩

/-- Claim C3 counterexample: for the input `def foo(a) b 7` the definition
parses (leaving the lookahead at the token `7`) and code generation fails
with the unknown-variable diagnostic; the driver resumes with the
lookahead still at `7` — it consumes zero further tokens, not "exactly
one" as the claim states for code-generation-stage failures (one consumed
token would have left the lookahead at end of input). -/
theorem c3_counterexample :
    (ParseDefinition PFUEL (initD "def foo(a) b 7").pstate).1.isSome = true
    ∧ (HandleDefinition PFUEL (initD "def foo(a) b 7")).cg.errors
        = ["Unknown variable name"]
    ∧ (HandleDefinition PFUEL (initD "def foo(a) b 7")).pstate
        = (ParseDefinition PFUEL (initD "def foo(a) b 7").pstate).2
    ∧ (HandleDefinition PFUEL (initD "def foo(a) b 7")).pstate.curTok = .num 7
    ∧ (getNextToken (ParseDefinition PFUEL (initD "def foo(a) b 7").pstate).2).curTok
        = .eof
    ∧ (HandleDefinition PFUEL (initD "def foo(a) b 7")).pstate
        ≠ getNextToken (ParseDefinition PFUEL (initD "def foo(a) b 7").pstate).2 := by
  refine ⟨by with_unfolding_all rfl, by with_unfolding_all rfl, by with_unfolding_all rfl,
    by with_unfolding_all rfl, by with_unfolding_all rfl, ?_⟩
  intro he
  have h4 : (HandleDefinition PFUEL (initD "def foo(a) b 7")).pstate.curTok = .num 7 := by
    with_unfolding_all rfl
  have h5 : (getNextToken (ParseDefinition PFUEL (initD "def foo(a) b 7").pstate).2).curTok
      = .eof := by
    with_unfolding_all rfl
  rw [he, h5] at h4
  exact Tok.noConfusion h4

/-- Claim C3 (amended): on a parsing-stage failure of any top-level form
the driver consumes exactly one further token before resuming the loop;
on a code-generation-stage failure (possible for definitions and for bare
top-level expressions; an extern prototype's lowering always succeeds) it
consumes no further token — the parse already left the stream after the
form; and the loop terminates only on the end-of-input token, never
because a form was malformed. -/
theorem c3_recovery :
    (∀ (fuel : Nat) (d : DState) (p1 : PState),
        ParseDefinition fuel d.pstate = (none, p1) →
        HandleDefinition fuel d = { d with pstate := getNextToken p1 })
    ∧ (∀ (fuel : Nat) (d : DState) (p1 : PState),
        ParseExt fuel d.pstate = (none, p1) →
        HandleExt fuel d = { d with pstate := getNextToken p1 })
    ∧ (∀ (fuel : Nat) (d : DState) (p1 : PState),
        ParseTopLevelExpr fuel d.pstate = (none, p1) →
        HandleTopLevelExpression fuel d = { d with pstate := getNextToken p1 })
    ∧ (∀ (fuel : Nat) (d : DState) (fn : FunctionAST) (p1 : PState) (cg1 : CGState),
        ParseDefinition fuel d.pstate = (some fn, p1) →
        fn.codegen d.cg = (none, cg1) →
        HandleDefinition fuel d = { d with pstate := p1, cg := cg1 })
    ∧ (∀ (fuel : Nat) (d : DState) (fn : FunctionAST) (p1 : PState) (cg1 : CGState),
        ParseTopLevelExpr fuel d.pstate = (some fn, p1) →
        fn.codegen d.cg = (none, cg1) →
        HandleTopLevelExpression fuel d = { d with pstate := p1, cg := cg1 })
    ∧ (∀ (fuel : Nat) (d : DState), MainStep fuel d = none ↔ d.pstate.curTok = .eof) := by
  refine ⟨?_, ?_, ?_, ?_, ?_, ?_⟩
  · intro fuel d p1 h
    simp only [HandleDefinition, h]
  · intro fuel d p1 h
    simp only [HandleExt, h]
  · intro fuel d p1 h
    simp only [HandleTopLevelExpression, h]
  · intro fuel d fn p1 cg1 hp hc
    simp only [HandleDefinition, hp, hc]
  · intro fuel d fn p1 cg1 hp hc
    simp only [HandleTopLevelExpression, hp, hc]
  · intro fuel d
    cases htk : d.pstate.curTok <;> simp only [MainStep, htk] <;> try simp
    intro h
    split at h <;> simp_all

/-- Witness for C3: at the concrete input `)` the parse of the top-level
form fails and the driver advances exactly one token; at
`def foo(a) b 7` and at the bare expression `b` code generation fails
after a successful parse and the driver consumes nothing further. -/
theorem c3_witness :
    HandleTopLevelExpression PFUEL (initD ")")
      = { initD ")" with
          pstate := getNextToken (ParseTopLevelExpr PFUEL (initD ")").pstate).2 }
    ∧ HandleDefinition PFUEL (initD "def foo(a) b 7")
      = { initD "def foo(a) b 7" with
          pstate := (ParseDefinition PFUEL (initD "def foo(a) b 7").pstate).2,
          cg := ((FunctionAST.mk ⟨"foo", ["a"]⟩ (.var "b")).codegen
                  (initD "def foo(a) b 7").cg).2 }
    ∧ HandleTopLevelExpression PFUEL (initD "b")
      = { initD "b" with
          pstate := (ParseTopLevelExpr PFUEL (initD "b").pstate).2,
          cg := ((FunctionAST.mk ⟨"", []⟩ (.var "b")).codegen (initD "b").cg).2 } := by
  refine ⟨?_, ?_, ?_⟩
  · exact c3_recovery.2.2.1 PFUEL (initD ")")
      (ParseTopLevelExpr PFUEL (initD ")").pstate).2 (by with_unfolding_all rfl)
  · exact c3_recovery.2.2.2.1 PFUEL (initD "def foo(a) b 7")
      ⟨⟨"foo", ["a"]⟩, .var "b"⟩
      (ParseDefinition PFUEL (initD "def foo(a) b 7").pstate).2
      ((FunctionAST.mk ⟨"foo", ["a"]⟩ (.var "b")).codegen (initD "def foo(a) b 7").cg).2
      (by with_unfolding_all rfl) (by with_unfolding_all rfl)
  · exact c3_recovery.2.2.2.2.1 PFUEL (initD "b")
      ⟨⟨"", []⟩, .var "b"⟩
      (ParseTopLevelExpr PFUEL (initD "b").pstate).2
      ((FunctionAST.mk ⟨"", []⟩ (.var "b")).codegen (initD "b").cg).2
      (by with_unfolding_all rfl) (by with_unfolding_all rfl)

/-- Claim C4 counterexample: lowering a prototype whose name already exists
does NOT in general reuse the existing declaration — `PrototypeAST::codegen`
itself performs no lookup, so a second bare `extern foo(a)` creates a
second (suffix-renamed) backend function: the module ends with two
functions, not one. -/
theorem c4_counterexample :
    ((runDriver "extern foo(a) ; extern foo(a)").map fun d => d.cg.module.length)
      = some 2
    ∧ ((runDriver "extern foo(a) ; extern foo(a)").map fun d => d.cg.module.map Func.name)
      = some ["foo", "foo.0"]
    ∧ ((runDriver "extern foo(a) ; extern foo(a)").map fun d => d.cg.errors) = some [] := by
  refine ⟨?_, ?_, ?_⟩ <;> with_unfolding_all rfl

/-- Claim C4 (amended): the reuse happens when lowering a function
definition: `FunctionAST::codegen` resolves the prototype's name against
the module first and reuses an existing function of that name rather than
declaring a new one.  In particular `extern foo(a)` followed by
`def foo(a) a+1` both lower without error into a single backend function,
and the bare call `foo(2)` evaluates to 3. -/
theorem c4_reuse_on_define :
    (∀ (p : PrototypeAST) (s : CGState) (g : Func),
        getFunction s.module p.name = some g → resolveFn p s = (g.id, s))
    ∧ sessionEval "extern foo(a) ; def foo(a) a+1" "foo(2)" = some 3
    ∧ ((runDriver "extern foo(a) ; def foo(a) a+1").map fun d => (d.cg.errors, d.pstate.errs))
        = some ([], [])
    ∧ ((runDriver "extern foo(a) ; def foo(a) a+1").map fun d => d.cg.module.length)
        = some 1 := by
  refine ⟨?_, ?_, ?_, ?_⟩
  · intro p s g h
    simp only [resolveFn, h]
  · with_unfolding_all rfl
  · with_unfolding_all rfl
  · with_unfolding_all rfl

/-- Witness for C4: resolving the prototype `foo(a)` against a module that
already declares `foo` returns the existing function unchanged. -/
theorem c4_witness :
    resolveFn ⟨"foo", ["a"]⟩ ⟨[⟨0, "foo", ["a"], none⟩], [], none, 1, 0, []⟩
      = (0, ⟨[⟨0, "foo", ["a"], none⟩], [], none, 1, 0, []⟩) :=
  c4_reuse_on_define.1 ⟨"foo", ["a"]⟩ ⟨[⟨0, "foo", ["a"], none⟩], [], none, 1, 0, []⟩
    ⟨0, "foo", ["a"], none⟩ (by with_unfolding_all rfl)

/-- Claim C5: lowering a definition whose name already carries a function
with a body fails with the redefinition diagnostic and leaves the module
— in particular the first definition — untouched; in a session, the
second `def foo(a) ...` errors and `foo(2)` still evaluates with the
first body. -/
theorem c5_no_redefinition :
    (∀ (fn : FunctionAST) (s : CGState) (g : Func),
        getFunction s.module fn.proto.name = some g →
        fnHasBody s.module g.id = true →
        fn.codegen s = (none, logErrV s "Function cannot be redefined")
        ∧ (logErrV s "Function cannot be redefined").module = s.module)
    ∧ ((runDriver "def foo(a) a+1 ; def foo(a) a+2").map fun d => d.cg.errors)
        = some ["Function cannot be redefined"]
    ∧ sessionEval "def foo(a) a+1 ; def foo(a) a+2" "foo(2)" = some 3 := by
  refine ⟨?_, ?_, ?_⟩
  · intro fn s g hg hb
    constructor
    · simp only [FunctionAST.codegen, resolveFn, hg, hb, if_true]
    · rfl
  · with_unfolding_all rfl
  · with_unfolding_all rfl

/-- Witness for C5: against a module in which `foo` is already defined
(has a body), lowering another definition of `foo` fails with the
redefinition error and the module is unchanged. -/
theorem c5_witness :
    (FunctionAST.mk ⟨"foo", ["a"]⟩ (.num 5)).codegen
        ⟨[⟨0, "foo", ["a"], some []⟩], [], none, 1, 0, []⟩
      = (none, logErrV ⟨[⟨0, "foo", ["a"], some []⟩], [], none, 1, 0, []⟩
          "Function cannot be redefined")
    ∧ (logErrV ⟨[⟨0, "foo", ["a"], some []⟩], [], none, 1, 0, []⟩
          "Function cannot be redefined").module
        = [⟨0, "foo", ["a"], some []⟩] :=
  c5_no_redefinition.1 ⟨⟨"foo", ["a"]⟩, .num 5⟩
    ⟨[⟨0, "foo", ["a"], some []⟩], [], none, 1, 0, []⟩
    ⟨0, "foo", ["a"], some []⟩ (by with_unfolding_all rfl) (by with_unfolding_all rfl)

/-! ## Preservation lemmas for expression lowering

Expression lowering only appends instructions at the insert point and
default-inserts null entries into the scope table: the identity/name
skeleton of the module and the set of names actually bound in the scope
table are invariant. -/

def modSkel (m : List Func) : List (Nat × String) := m.map (fun f => (f.id, f.name))

theorem modSkel_appendInstr (m : List Func) (fid : Nat) (ins : Nat × Op) :
    modSkel (appendInstr m fid ins) = modSkel m := by
  simp only [modSkel, appendInstr, List.map_map]
  apply List.map_congr_left
  intro f _
  by_cases h : f.id = fid <;> simp [h]

theorem modSkel_setBody (m : List Func) (fid : Nat) (b : Option (List (Nat × Op))) :
    modSkel (setBody m fid b) = modSkel m := by
  simp only [modSkel, setBody, List.map_map]
  apply List.map_congr_left
  intro f _
  by_cases h : f.id = fid <;> simp [h]

theorem emit_skel (op : Op) (s : CGState) :
    modSkel ((emit op s).2.module) = modSkel s.module := by
  cases h : s.insertFn <;> simp [emit, h, modSkel_appendInstr]

theorem emit_nv (op : Op) (s : CGState) :
    (emit op s).2.NamedValues = s.NamedValues := by
  cases h : s.insertFn <;> simp [emit, h]

theorem boundNames_cons (e : String × Option Val) (l : List (String × Option Val)) :
    boundNames (e :: l) = if e.2.isSome then e.1 :: boundNames l else boundNames l := by
  simp only [boundNames, List.filter_cons]
  split <;> simp

theorem mapIndex_bound (nv : List (String × Option Val)) (n : String) :
    boundNames (mapIndex nv n).2 = boundNames nv := by
  induction nv with
  | nil => simp [mapIndex, boundNames]
  | cons e rest ih =>
    simp only [mapIndex]
    by_cases he : e.1 = n
    · rw [if_pos he]
    · rw [if_neg he]
      rcases hmi : mapIndex rest n with ⟨v, rest2⟩
      rw [hmi] at ih
      simp only []
      rw [boundNames_cons, boundNames_cons, ih]

theorem mem_boundNames_setNV (nv : List (String × Option Val)) (a n : String) (v : Val) :
    n ∈ boundNames (setNV nv a (some v)) ↔ n = a ∨ n ∈ boundNames nv := by
  induction nv with
  | nil => simp [setNV, boundNames]
  | cons e rest ih =>
    simp only [setNV]
    by_cases he : e.1 = a
    · rw [if_pos he]
      rcases hv : e.2 with - | v2 <;>
        simp [boundNames_cons, hv, ← he] <;> tauto
    · rw [if_neg he]
      rcases hv : e.2 with - | v2 <;> simp [boundNames_cons, hv, ih] <;> tauto

theorem mem_bound_bindParamsAux (args : List String) :
    ∀ (i : Nat) (nv : List (String × Option Val)) (n : String),
      n ∈ boundNames (bindParamsAux i nv args) ↔ n ∈ args ∨ n ∈ boundNames nv := by
  induction args with
  | nil => intro i nv n; simp [bindParamsAux]
  | cons a rest ih =>
    intro i nv n
    simp only [bindParamsAux]
    rw [ih, mem_boundNames_setNV]
    simp only [List.mem_cons]
    tauto

mutual

theorem codegen_pres (e : ExprAST) (s : CGState) :
    modSkel ((ExprAST.codegen e s).2.module) = modSkel s.module
    ∧ boundNames ((ExprAST.codegen e s).2.NamedValues) = boundNames s.NamedValues := by
  cases e with
  | num v => exact ⟨rfl, rfl⟩
  | var n =>
    simp only [ExprAST.codegen]
    rcases hmi : mapIndex s.NamedValues n with ⟨v, nv2⟩
    have hb := mapIndex_bound s.NamedValues n
    rw [hmi] at hb
    cases v <;> simp [logErrV, hb]
  | bin op l r =>
    rcases hL : ExprAST.codegen l s with ⟨lv, s1⟩
    rcases hR : ExprAST.codegen r s1 with ⟨rv, s2⟩
    have hl := codegen_pres l s
    have hr := codegen_pres r s1
    rw [hL] at hl
    rw [hR] at hr
    have hmod : modSkel s2.module = modSkel s.module := hr.1.trans hl.1
    have hnv : boundNames s2.NamedValues = boundNames s.NamedValues := hr.2.trans hl.2
    simp only [ExprAST.codegen, hL, hR]
    cases lv with
    | none => cases rv <;> simp [hmod, hnv]
    | some a =>
      cases rv with
      | none => simp [hmod, hnv]
      | some b =>
        split_ifs <;> simp [emit_skel, emit_nv, logErrV, hmod, hnv]
  | call callee args =>
    rcases hA : ExprListAST.codegen args s with ⟨avs, s1⟩
    have ha := codegenList_pres args s
    rw [hA] at ha
    simp only [ExprAST.codegen]
    cases hg : getFunction s.module callee with
    | none => simp [logErrV]
    | some f =>
      simp only []
      by_cases hlen : f.args.length ≠ args.length
      · rw [if_pos hlen]; simp [logErrV]
      · rw [if_neg hlen]
        rw [hA]
        cases avs <;> simp [ha.1, ha.2, emit_skel, emit_nv]

theorem codegenList_pres (es : ExprListAST) (s : CGState) :
    modSkel ((ExprListAST.codegen es s).2.module) = modSkel s.module
    ∧ boundNames ((ExprListAST.codegen es s).2.NamedValues) = boundNames s.NamedValues := by
  cases es with
  | nil => exact ⟨rfl, rfl⟩
  | cons e rest =>
    rcases hE : ExprAST.codegen e s with ⟨v, s1⟩
    have h1 := codegen_pres e s
    rw [hE] at h1
    simp only [ExprListAST.codegen, hE]
    cases v with
    | none => exact h1
    | some v0 =>
      rcases hR : ExprListAST.codegen rest s1 with ⟨vs, s2⟩
      have h2 := codegenList_pres rest s1
      rw [hR] at h2
      cases vs <;>
        simp [hR, h2.1.trans h1.1, h2.2.trans h1.2]

end

/-- Shared analysis of `FunctionAST::codegen` when the body fails to lower:
the whole function (freshly created or pre-existing) is erased, leaving no
function of that id — and, when the module maps the prototype's name to
that id only, no function of that name. -/
theorem codegen_body_failure (fn : FunctionAST) (s : CGState) (fid : Nat)
    (s1 s3 : CGState)
    (hres : resolveFn fn.proto s = (fid, s1))
    (hb : fnHasBody s1.module fid = false)
    (hbody : fn.body.codegen (setupBody fid s1) = (none, s3)) :
    fn.codegen s = (none, eraseFn fid s3)
    ∧ findFn (eraseFn fid s3).module fid = none
    ∧ ((∀ g ∈ s1.module, g.name = fn.proto.name → g.id = fid) →
        getFunction (eraseFn fid s3).module fn.proto.name = none) := by
  have hcg : fn.codegen s = (none, eraseFn fid s3) := by
    simp only [FunctionAST.codegen, hres, hb, hbody]
    simp
  refine ⟨hcg, findFn_erase s3.module fid, ?_⟩
  intro hOnce
  have hskel : modSkel s3.module = modSkel s1.module := by
    have h := codegen_pres fn.body (setupBody fid s1)
    rw [hbody] at h
    simpa [setupBody, modSkel_setBody] using h.1
  by_cases hname : fn.proto.name = ""
  · simp [getFunction, hname]
  · rw [getFunction, if_neg hname, List.find?_eq_none]
    intro f hf
    simp only [eraseFn, List.mem_filter, bne_iff_ne, ne_eq] at hf
    simp only [beq_iff_eq]
    intro hfname
    have hmem : (f.id, f.name) ∈ modSkel s3.module := by
      simp only [modSkel, List.mem_map]
      exact ⟨f, hf.1, rfl⟩
    rw [hskel] at hmem
    simp only [modSkel, List.mem_map, Prod.mk.injEq] at hmem
    obtain ⟨g, hg, hgid, hgname⟩ := hmem
    have : g.id = fid := hOnce g hg (hgname.trans hfname)
    exact hf.2 (hgid ▸ this)

/-- Claim C6: when a definition's body fails to lower, the partially
constructed backend function is discarded entirely: the erased module
contains no function of the worked-on id, and (when the name resolved to
that function alone) no function of that name — no dangling declaration
remains. -/
theorem c6_body_failure_discards :
    ∀ (fn : FunctionAST) (s : CGState) (fid : Nat) (s1 s3 : CGState),
      resolveFn fn.proto s = (fid, s1) →
      fnHasBody s1.module fid = false →
      fn.body.codegen (setupBody fid s1) = (none, s3) →
      fn.codegen s = (none, eraseFn fid s3)
      ∧ findFn (eraseFn fid s3).module fid = none
      ∧ ((∀ g ∈ s1.module, g.name = fn.proto.name → g.id = fid) →
          getFunction (eraseFn fid s3).module fn.proto.name = none) :=
  fun fn s fid s1 s3 hres hb hbody => codegen_body_failure fn s fid s1 s3 hres hb hbody

/-- Witness for C6: `def foo(a) b` against the empty module — the body
fails (unknown variable `b`) and afterwards no function named `foo`
exists in the module. -/
theorem c6_witness :
    (FunctionAST.mk ⟨"foo", ["a"]⟩ (.var "b")).codegen cgInit
      = (none, eraseFn 0 ⟨[⟨0, "foo", ["a"], some []⟩],
          [("a", some (.argV 0)), ("b", none)], some 0, 1, 0,
          ["Unknown variable name"]⟩)
    ∧ getFunction (eraseFn 0 ⟨[⟨0, "foo", ["a"], some []⟩],
          [("a", some (.argV 0)), ("b", none)], some 0, 1, 0,
          ["Unknown variable name"]⟩).module "foo" = none := by
  have h := c6_body_failure_discards ⟨⟨"foo", ["a"]⟩, .var "b"⟩ cgInit 0
      ⟨[⟨0, "foo", ["a"], none⟩], [], none, 1, 0, []⟩
      ⟨[⟨0, "foo", ["a"], some []⟩], [("a", some (.argV 0)), ("b", none)],
        some 0, 1, 0, ["Unknown variable name"]⟩
      (by with_unfolding_all rfl) (by with_unfolding_all rfl)
      (by with_unfolding_all rfl)
  refine ⟨h.1, h.2.2 ?_⟩
  intro g hg _
  simp only [List.mem_singleton] at hg
  rw [hg]

/-- Claim C7: when a name holds only an extern declaration and a later
definition of that name fails during body lowering, the pre-existing
declaration is erased together with the failed partial function; every
subsequent call to that name (against the resulting module) fails with
the unknown-function diagnostic until the name is declared again. -/
theorem c7_failed_define_erases_decl :
    ∀ (fn : FunctionAST) (s : CGState) (g : Func) (s3 : CGState),
      getFunction s.module fn.proto.name = some g →
      findFn s.module g.id = some g →
      g.body = none →
      fn.body.codegen (setupBody g.id s) = (none, s3) →
      (∀ h ∈ s.module, h.name = fn.proto.name → h.id = g.id) →
      fn.codegen s = (none, eraseFn g.id s3)
      ∧ getFunction (eraseFn g.id s3).module fn.proto.name = none
      ∧ (∀ (cs : CGState) (args : ExprListAST),
          cs.module = (eraseFn g.id s3).module →
          ExprAST.codegen (.call fn.proto.name args) cs
            = (none, logErrV cs "Unknown function referenced")) := by
  intro fn s g s3 hg hfind hnob hbody hOnce
  have hres : resolveFn fn.proto s = (g.id, s) := by simp only [resolveFn, hg]
  have hb : fnHasBody s.module g.id = false := by simp [fnHasBody, hfind, hnob]
  have h := codegen_body_failure fn s g.id s s3 hres hb hbody
  have hnone : getFunction (eraseFn g.id s3).module fn.proto.name = none :=
    h.2.2 hOnce
  refine ⟨h.1, hnone, ?_⟩
  intro cs args hmod
  have : getFunction cs.module fn.proto.name = none := by rw [hmod]; exact hnone
  simp only [ExprAST.codegen, this]

/-- Witness for C7: after `extern foo(a)`, the failing definition
`def foo(a) b` erases the declaration, and a call `foo()` against the
resulting (empty) module fails with the unknown-function diagnostic. -/
theorem c7_witness :
    (FunctionAST.mk ⟨"foo", ["a"]⟩ (.var "b")).codegen
        ⟨[⟨0, "foo", ["a"], none⟩], [], none, 1, 0, []⟩
      = (none, eraseFn 0 ⟨[⟨0, "foo", ["a"], some []⟩],
          [("a", some (.argV 0)), ("b", none)], some 0, 1, 0,
          ["Unknown variable name"]⟩)
    ∧ ExprAST.codegen (.call "foo" .nil) ⟨[], [], none, 1, 0, []⟩
        = (none, logErrV ⟨[], [], none, 1, 0, []⟩ "Unknown function referenced") := by
  have h := c7_failed_define_erases_decl ⟨⟨"foo", ["a"]⟩, .var "b"⟩
      ⟨[⟨0, "foo", ["a"], none⟩], [], none, 1, 0, []⟩
      ⟨0, "foo", ["a"], none⟩
      ⟨[⟨0, "foo", ["a"], some []⟩], [("a", some (.argV 0)), ("b", none)],
        some 0, 1, 0, ["Unknown variable name"]⟩
      (by with_unfolding_all rfl) (by with_unfolding_all rfl)
      (by with_unfolding_all rfl) (by with_unfolding_all rfl)
      (by intro g hg _; simp only [List.mem_singleton] at hg; rw [hg])
  exact ⟨h.1, h.2.2 ⟨[], [], none, 1, 0, []⟩ .nil (by with_unfolding_all rfl)⟩

/-- Claim C8: the active scope table is cleared and rebuilt from the
current function's parameter list at the start of each function's code
generation (so nothing leaks across function boundaries); the names it
binds are exactly the parameter names; and expression lowering never
changes the set of bound names (failed lookups only default-insert inert
null entries), so the invariant holds at every point of a body's
lowering. -/
theorem c8_scope_table :
    (∀ (fid : Nat) (s : CGState),
        (setupBody fid s).NamedValues = bindParams (fnArgs s.module fid))
    ∧ (∀ (args : List String) (n : String),
        n ∈ boundNames (bindParams args) ↔ n ∈ args)
    ∧ (∀ (e : ExprAST) (s : CGState),
        boundNames ((ExprAST.codegen e s).2.NamedValues) = boundNames s.NamedValues) := by
  refine ⟨fun fid s => rfl, ?_, fun e s => (codegen_pres e s).2⟩
  intro args n
  rw [bindParams, mem_bound_bindParamsAux]
  simp [boundNames]

end Kaleidoscope
